import Mathlib

/-!
Verification of the MiniBeast USB agent's deterministic
collection-and-attestation pipeline, as a shallow embedding of the Go
sources (src/core/collection, src/core/io, src/core/crypto,
src/core/summarizer key loaders).

Modelling conventions:
* Go strings are byte strings and are modelled as `List Nat`; Go's
  lexicographic `<` on strings is `strLtb`.
* Go's `sort.Slice` / `sort.Strings` (a deterministic in-place comparison
  sort) is modelled by the deterministic comparison sort `sortBy`,
  invoked with the Boolean `le` relation `fun a b => ! less b a` derived
  from each call's `less` closure.
* Concurrency (the bounded pool, channel-based aggregation) is modelled
  by explicit transition systems and by quantifying over the completion
  order of the category tasks.
* Fallible operations return `Except`/`Option`.
-/

namespace Minibeast

/-- Go strings are byte strings; we model them as lists of naturals. -/
abbrev Str := List Nat

/-- ASCII bytes of a literal, for embedding Go string constants. -/
def bytes (s : String) : Str := s.data.map Char.toNat

/-- Byte-wise lexicographic strict comparison: Go's `<` on strings. -/
def strLtb : Str → Str → Bool
  | _, [] => false
  | [], _ :: _ => true
  | a :: as, b :: bs =>
    if a < b then true
    else if b < a then false
    else strLtb as bs

theorem strLtb_irrefl (a : Str) : strLtb a a = false := by
  induction a with
  | nil => rfl
  | cons x xs ih => simp [strLtb, ih]

theorem strLtb_trans : ∀ (a b c : Str),
    strLtb a b = true → strLtb b c = true → strLtb a c = true
  | _, [], [] => by simp [strLtb]
  | _, _ :: _, [] => by simp [strLtb]
  | [], [], _ :: _ => by simp [strLtb]
  | [], _ :: _, _ :: _ => by simp [strLtb]
  | _ :: _, [], _ :: _ => by simp [strLtb]
  | a :: as, b :: bs, c :: cs => by
    intro hab hbc
    rcases Nat.lt_trichotomy a b with h1 | h1 | h1 <;>
      rcases Nat.lt_trichotomy b c with h2 | h2 | h2 <;>
      simp only [strLtb] at hab hbc ⊢
    · simp [Nat.lt_trans h1 h2]
    · subst h2; simp [h1]
    · simp [Nat.lt_asymm h2, h2] at hbc
    · subst h1; simp [h2]
    · subst h1; subst h2
      simp only [Nat.lt_irrefl, if_false] at hab hbc ⊢
      exact strLtb_trans as bs cs hab hbc
    · subst h1; simp [Nat.lt_asymm h2, h2] at hbc
    · simp [Nat.lt_asymm h1, h1] at hab
    · subst h2; simp [Nat.lt_asymm h1, h1] at hab
    · simp [Nat.lt_asymm h1, h1] at hab

theorem strLtb_tricho : ∀ (a b : Str),
    strLtb a b = true ∨ a = b ∨ strLtb b a = true
  | [], [] => by simp [strLtb]
  | [], _ :: _ => by simp [strLtb]
  | _ :: _, [] => by simp [strLtb]
  | a :: as, b :: bs => by
    rcases Nat.lt_trichotomy a b with h | h | h
    · exact Or.inl (by simp [strLtb, h])
    · subst h
      rcases strLtb_tricho as bs with h' | h' | h'
      · exact Or.inl (by simp [strLtb, h'])
      · exact Or.inr (Or.inl (by rw [h']))
      · exact Or.inr (Or.inr (by simp [strLtb, h']))
    · exact Or.inr (Or.inr (by simp [strLtb, h]))

/-- Strict total order, in Boolean form; what each Go `less` closure
over a totally ordered sort key satisfies. -/
structure IsSTO {α : Type} (lt : α → α → Bool) : Prop where
  irrefl : ∀ a, lt a a = false
  trans : ∀ a b c, lt a b = true → lt b c = true → lt a c = true
  tricho : ∀ a b, lt a b = true ∨ a = b ∨ lt b a = true

theorem IsSTO.asymm {α : Type} {lt : α → α → Bool} (h : IsSTO lt)
    {a b : α} (hab : lt a b = true) : lt b a = false := by
  by_contra hba
  have hba' : lt b a = true := by
    revert hba; cases hv : lt b a <;> simp
  have := h.trans a b a hab hba'
  simp [h.irrefl a] at this

theorem strLtb_sto : IsSTO strLtb :=
  ⟨strLtb_irrefl, strLtb_trans, strLtb_tricho⟩

/-- The reversed comparison, for Go `less` closures that use `>`. -/
def flipLt {α : Type} (lt : α → α → Bool) : α → α → Bool := fun a b => lt b a

theorem flipLt_sto {α : Type} {lt : α → α → Bool} (h : IsSTO lt) :
    IsSTO (flipLt lt) := by
  refine ⟨h.irrefl, fun a b c h1 h2 => h.trans c b a h2 h1, fun a b => ?_⟩
  rcases h.tricho a b with h' | h' | h'
  · exact Or.inr (Or.inr h')
  · exact Or.inr (Or.inl h')
  · exact Or.inl h'

/-- Lexicographic combination on pairs: equality on the first component,
then comparison of the second; the shape of the recent-profiles `less`. -/
def lexLt {α β : Type} [DecidableEq α]
    (ltA : α → α → Bool) (ltB : β → β → Bool) : α × β → α × β → Bool :=
  fun x y => if x.1 = y.1 then ltB x.2 y.2 else ltA x.1 y.1

theorem lexLt_sto {α β : Type} [DecidableEq α]
    {ltA : α → α → Bool} {ltB : β → β → Bool}
    (hA : IsSTO ltA) (hB : IsSTO ltB) : IsSTO (lexLt ltA ltB) := by
  refine ⟨fun a => by simp [lexLt, hB.irrefl], ?_, ?_⟩
  · rintro ⟨a1, a2⟩ ⟨b1, b2⟩ ⟨c1, c2⟩ h1 h2
    simp only [lexLt] at h1 h2 ⊢
    by_cases e1 : a1 = b1 <;> by_cases e2 : b1 = c1
    · subst e1; subst e2
      simp_all
      exact hB.trans _ _ _ h1 h2
    · subst e1; simp_all
    · subst e2; simp_all
    · simp only [e1, if_false] at h1
      simp only [e2, if_false] at h2
      have hac : ltA a1 c1 = true := hA.trans _ _ _ h1 h2
      have : a1 ≠ c1 := by
        intro e; subst e
        simp [hA.asymm h1] at h2
      simp [this, hac]
  · rintro ⟨a1, a2⟩ ⟨b1, b2⟩
    rcases hA.tricho a1 b1 with h | h | h
    · refine Or.inl ?_
      have : a1 ≠ b1 := by
        intro e; subst e; simp [hA.irrefl] at h
      simp [lexLt, this, h]
    · subst h
      rcases hB.tricho a2 b2 with h' | h' | h'
      · exact Or.inl (by simp [lexLt, h'])
      · exact Or.inr (Or.inl (by rw [h']))
      · exact Or.inr (Or.inr (by simp [lexLt, h']))
    · refine Or.inr (Or.inr ?_)
      have : b1 ≠ a1 := by
        intro e; subst e; simp [hA.irrefl] at h
      simp [lexLt, this, h]

/-- The Boolean `le` relation Go's sort establishes over a key:
`le x y` holds when `¬ less y x`, with `less` comparing the keys. -/
def keyLe {α γ : Type} (lt : α → α → Bool) (key : γ → α) : γ → γ → Bool :=
  fun x y => ! lt (key y) (key x)

theorem keyLe_total {α γ : Type} {lt : α → α → Bool} (h : IsSTO lt)
    (key : γ → α) (x y : γ) :
    keyLe lt key x y = true ∨ keyLe lt key y x = true := by
  by_cases hv : lt (key y) (key x) = true
  · exact Or.inr (by simp [keyLe, h.asymm hv])
  · exact Or.inl (by simp [keyLe]; revert hv; cases lt (key y) (key x) <;> simp)

theorem keyLe_trans {α γ : Type} {lt : α → α → Bool} (h : IsSTO lt)
    (key : γ → α) (x y z : γ) (hxy : keyLe lt key x y = true)
    (hyz : keyLe lt key y z = true) : keyLe lt key x z = true := by
  simp only [keyLe, Bool.not_eq_true'] at hxy hyz ⊢
  by_contra hzx
  have hzx' : lt (key z) (key x) = true := by
    revert hzx; cases lt (key z) (key x) <;> simp
  rcases h.tricho (key y) (key x) with hv | hv | hv
  · simp [hv] at hxy
  · rw [hv] at hyz
    rw [hyz] at hzx'
    simp at hzx'
  · have := h.trans _ _ _ hzx' hv
    simp [this] at hyz

/-- Ordered insertion, the building block of the deterministic
comparison sort modelling Go's sort package. -/
def insertOrd {α : Type} (le : α → α → Bool) (x : α) : List α → List α
  | [] => [x]
  | y :: ys => if le x y then x :: y :: ys else y :: insertOrd le x ys

/-- Deterministic comparison sort modelling `sort.Slice`/`sort.Strings`. -/
def sortBy {α : Type} (le : α → α → Bool) : List α → List α
  | [] => []
  | x :: xs => insertOrd le x (sortBy le xs)

theorem mem_insertOrd {α : Type} {le : α → α → Bool} {x a : α}
    {l : List α} : a ∈ insertOrd le x l ↔ a = x ∨ a ∈ l := by
  induction l with
  | nil => simp [insertOrd]
  | cons y ys ih =>
    by_cases hv : le x y = true
    · simp only [insertOrd, hv, if_true, List.mem_cons]
    · have hv' : le x y = false := by revert hv; cases le x y <;> simp
      simp only [insertOrd, hv', Bool.false_eq_true, if_false, List.mem_cons, ih]
      tauto

theorem pairwise_insertOrd {α : Type} {le : α → α → Bool}
    (htotal : ∀ a b, le a b = true ∨ le b a = true)
    (htrans : ∀ a b c, le a b = true → le b c = true → le a c = true)
    (x : α) (l : List α) (h : l.Pairwise (fun a b => le a b = true)) :
    (insertOrd le x l).Pairwise (fun a b => le a b = true) := by
  induction l with
  | nil => simp [insertOrd]
  | cons y ys ih =>
    rcases List.pairwise_cons.mp h with ⟨hy, hys⟩
    by_cases hv : le x y = true
    · simp only [insertOrd, hv, if_true]
      refine List.pairwise_cons.mpr ⟨?_, h⟩
      intro b hb
      rcases List.mem_cons.mp hb with rfl | hb
      · exact hv
      · exact htrans x y b hv (hy b hb)
    · have hv' : le x y = false := by revert hv; cases le x y <;> simp
      simp only [insertOrd, hv', Bool.false_eq_true, if_false]
      refine List.pairwise_cons.mpr ⟨?_, ih hys⟩
      intro b hb
      rcases mem_insertOrd.mp hb with hbx | hb
      · rw [hbx]
        rcases htotal x y with h' | h'
        · exact absurd h' hv
        · exact h'
      · exact hy b hb

theorem pairwise_sortBy {α : Type} {le : α → α → Bool}
    (htotal : ∀ a b, le a b = true ∨ le b a = true)
    (htrans : ∀ a b c, le a b = true → le b c = true → le a c = true)
    (l : List α) : (sortBy le l).Pairwise (fun a b => le a b = true) := by
  induction l with
  | nil => simp [sortBy]
  | cons x xs ih =>
    simpa [sortBy] using pairwise_insertOrd htotal htrans x (sortBy le xs) ih

theorem sortBy_of_pairwise {α : Type} {le : α → α → Bool} :
    ∀ {l : List α}, l.Pairwise (fun a b => le a b = true) → sortBy le l = l
  | [], _ => rfl
  | x :: xs, h => by
    rcases List.pairwise_cons.mp h with ⟨hx, hxs⟩
    have ih := sortBy_of_pairwise hxs
    simp only [sortBy, ih]
    cases xs with
    | nil => rfl
    | cons y ys => simp [insertOrd, hx y (List.mem_cons_self y ys)]

/-- Sorting an already-sorted list is the identity, hence the
deterministic ordering pass is idempotent field by field. -/
theorem sortBy_idem {α : Type} {le : α → α → Bool}
    (htotal : ∀ a b, le a b = true ∨ le b a = true)
    (htrans : ∀ a b c, le a b = true → le b c = true → le a c = true)
    (l : List α) : sortBy le (sortBy le l) = sortBy le l :=
  sortBy_of_pairwise (pairwise_sortBy htotal htrans l)

/-- platform/types/types.go: SystemInfo. -/
structure SystemInfo where
  OSName : Str
  OSVersion : Str
  OSBuild : Str
  Timezone : Str
  Hostname : Str
deriving DecidableEq

/-- platform/types/types.go: NetworkInterface. -/
structure NetworkInterface where
  Name : Str
  IPAddress : Str
  MACAddress : Str
deriving DecidableEq

/-- platform/types/types.go: NetworkInfo. -/
structure NetworkInfo where
  Interfaces : List NetworkInterface
  WiFiSSIDs : List Str
deriving DecidableEq

/-- platform/types/types.go: HardwareInfo. -/
structure HardwareInfo where
  SerialNumber : Str
  HardwareUUID : Str
deriving DecidableEq

/-- platform/types/types.go: User. -/
structure User where
  Username : Str
  FullName : Str
  UID : Str
deriving DecidableEq

/-- platform/types/types.go: UserProfile. -/
structure UserProfile where
  Username : Str
  LastLogon : Str
  LogonCount : Int
deriving DecidableEq

/-- platform/types/types.go: PIIInfo. -/
structure PIIInfo where
  Users : List User
  LoggedInUsers : List Str
  HomeDirs : List Str
  RecentProfiles : List UserProfile
  PrimaryEmail : Str
deriving DecidableEq

/-- collection/types.go: Facts, the complete system snapshot. The
`time.Time` timestamp is abstracted as a natural-number instant. -/
structure Facts where
  Timestamp : Nat
  CollectionDurationMs : Int
  CollectorVersion : Str
  Hostname : Str
  MachineOwner : Str
  ComputerName : Str
  Users : List User
  LoggedInUsers : List Str
  HomeDirs : List Str
  RecentProfiles : List UserProfile
  PrimaryEmail : Str
  LocalIPs : List NetworkInterface
  MACAddresses : List NetworkInterface
  WiFiSSIDs : List Str
  SerialNumber : Str
  HardwareUUID : Str
  OSName : Str
  OSVersion : Str
  OSBuild : Str
  Timezone : Str
deriving DecidableEq

/-- collection/types.go: ValidationError. -/
structure ValidationError where
  Field : Str
  Reason : Str
deriving DecidableEq

/-- collection/types.go: Facts.Validate, the critical-field emptiness
checks, in source order. -/
def Facts.Validate (f : Facts) : Option ValidationError :=
  if f.Hostname = [] then
    some ⟨bytes "hostname", bytes "must not be empty"⟩
  else if f.OSName = [] then
    some ⟨bytes "os_name", bytes "must not be empty"⟩
  else if f.HardwareUUID = [] then
    some ⟨bytes "hardware_uuid", bytes "must not be empty"⟩
  else none

/-- The `le` relation of collector.go's user sort: the Go closure is
`less i j := Users[i].Username < Users[j].Username`. -/
def userLe : User → User → Bool := keyLe strLtb (fun u => u.Username)

/-- The `le` relation of `sort.Strings` (ascending byte-wise order). -/
def strLeb : Str → Str → Bool := keyLe strLtb id

/-- The `le` relation of collector.go's interface sorts: the Go closure
is `less i j := xs[i].Name < xs[j].Name`. -/
def ifaceLe : NetworkInterface → NetworkInterface → Bool :=
  keyLe strLtb (fun i => i.Name)

/-- The `le` relation of collector.go's recent-profile sort: the Go
closure compares usernames ascending, breaking ties by `LastLogon`
descending. -/
def profLe : UserProfile → UserProfile → Bool :=
  keyLe (lexLt strLtb (flipLt strLtb)) (fun p => (p.Username, p.LastLogon))

/-- collector.go sortFacts: deterministic ordering of every array field
(the Collector receiver carries no state this method reads). -/
def sortFacts (facts : Facts) : Facts :=
  { facts with
    Users := sortBy userLe facts.Users
    LoggedInUsers := sortBy strLeb facts.LoggedInUsers
    HomeDirs := sortBy strLeb facts.HomeDirs
    WiFiSSIDs := sortBy strLeb facts.WiFiSSIDs
    LocalIPs := sortBy ifaceLe facts.LocalIPs
    MACAddresses := sortBy ifaceLe facts.MACAddresses
    RecentProfiles := sortBy profLe facts.RecentProfiles }

theorem sortBy_keyLe_idem {α γ : Type} {lt : α → α → Bool} (h : IsSTO lt)
    (key : γ → α) (l : List γ) :
    sortBy (keyLe lt key) (sortBy (keyLe lt key) l) = sortBy (keyLe lt key) l :=
  sortBy_idem (keyLe_total h key) (fun a b c => keyLe_trans h key a b c) l

/-- C10: the deterministic ordering pass sortFacts is idempotent: for
every Facts value f, applying sortFacts twice yields exactly the same
Facts value as applying it once. -/
theorem sortFacts_idempotent (f : Facts) :
    sortFacts (sortFacts f) = sortFacts f := by
  have hlex : IsSTO (lexLt strLtb (flipLt strLtb)) :=
    lexLt_sto strLtb_sto (flipLt_sto strLtb_sto)
  cases f
  simp only [sortFacts, userLe, strLeb, ifaceLe, profLe]
  congr 1 <;>
    first
      | rfl
      | exact sortBy_keyLe_idem strLtb_sto _ _
      | exact sortBy_keyLe_idem hlex _ _

/-- Decimal ASCII digits of a natural number. -/
def natBytes (n : Nat) : Str := (Nat.toDigits 10 n).map Char.toNat

/-- Decimal ASCII rendering of an integer. -/
def intBytes : Int → Str
  | .ofNat n => natBytes n
  | .negSucc n => 45 :: natBytes (n + 1)

/-- JSON string-body escaping of quote and backslash bytes. -/
def jsonEscape : Str → Str
  | [] => []
  | b :: bs =>
    if b = 34 ∨ b = 92 then 92 :: b :: jsonEscape bs
    else b :: jsonEscape bs

/-- A JSON string literal (byte 34 is the double quote). -/
def jsonStr (s : Str) : Str := 34 :: (jsonEscape s ++ [34])

/-- A `"name":value` member (byte 58 is the colon). -/
def jsonField (name : String) (v : Str) : Str := jsonStr (bytes name) ++ [58] ++ v

/-- A JSON object from its members (bytes 123/125 delimit, 44 separates). -/
def jsonObj (fields : List Str) : Str :=
  [123] ++ List.intercalate [44] fields ++ [125]

/-- A JSON array from its elements (bytes 91/93 delimit, 44 separates). -/
def jsonArr (elems : List Str) : Str :=
  [91] ++ List.intercalate [44] elems ++ [93]

/-- A User rendered with its json tags (full_name and uid carry
omitempty). -/
def serializeUser (u : User) : Str :=
  jsonObj ([jsonField "username" (jsonStr u.Username)] ++
    (if u.FullName = [] then [] else [jsonField "full_name" (jsonStr u.FullName)]) ++
    (if u.UID = [] then [] else [jsonField "uid" (jsonStr u.UID)]))

/-- A UserProfile rendered with its json tags (logon_count carries
omitempty). -/
def serializeUserProfile (p : UserProfile) : Str :=
  jsonObj ([jsonField "username" (jsonStr p.Username),
    jsonField "last_logon" (jsonStr p.LastLogon)] ++
    (if p.LogonCount = 0 then [] else [jsonField "logon_count" (intBytes p.LogonCount)]))

/-- A NetworkInterface rendered with its json tags. -/
def serializeInterface (ni : NetworkInterface) : Str :=
  jsonObj [jsonField "name" (jsonStr ni.Name),
    jsonField "ip_address" (jsonStr ni.IPAddress),
    jsonField "mac_address" (jsonStr ni.MACAddress)]

/-- Modelled from the spec: the persistence step that serializes a Facts
snapshot into its JSON artifact is not under src/ (only the json struct
tags in collection/types.go are). Per the spec the serializer emits the
canonical structure's fields in fixed declaration order under their
tagged names and does not re-sort any array. -/
def serializeFacts (f : Facts) : Str :=
  jsonObj ([jsonField "timestamp" (natBytes f.Timestamp),
    jsonField "collection_duration_ms" (intBytes f.CollectionDurationMs),
    jsonField "collector_version" (jsonStr f.CollectorVersion),
    jsonField "hostname" (jsonStr f.Hostname)] ++
    (if f.MachineOwner = [] then [] else
      [jsonField "machine_owner" (jsonStr f.MachineOwner)]) ++
    [jsonField "computer_name" (jsonStr f.ComputerName),
    jsonField "users" (jsonArr (f.Users.map serializeUser)),
    jsonField "logged_in_users" (jsonArr (f.LoggedInUsers.map jsonStr)),
    jsonField "home_dirs" (jsonArr (f.HomeDirs.map jsonStr)),
    jsonField "recent_profiles" (jsonArr (f.RecentProfiles.map serializeUserProfile))] ++
    (if f.PrimaryEmail = [] then [] else
      [jsonField "primary_user_email" (jsonStr f.PrimaryEmail)]) ++
    [jsonField "local_ips" (jsonArr (f.LocalIPs.map serializeInterface)),
    jsonField "mac_addresses" (jsonArr (f.MACAddresses.map serializeInterface)),
    jsonField "wifi_known_ssids" (jsonArr (f.WiFiSSIDs.map jsonStr)),
    jsonField "serial_number" (jsonStr f.SerialNumber),
    jsonField "hardware_uuid" (jsonStr f.HardwareUUID),
    jsonField "os_name" (jsonStr f.OSName),
    jsonField "os_version" (jsonStr f.OSVersion),
    jsonField "os_build" (jsonStr f.OSBuild),
    jsonField "timezone" (jsonStr f.Timezone)])

/-- config/types.go: the configuration CollectAll reads. Only the PII
policy gate selects behaviour; pool size and timeouts shape scheduling,
which the completion-order parameter abstracts. -/
structure Config where
  PII : Bool
deriving DecidableEq

/-- collection/types.go: the four collection categories. -/
inductive Cat
  | system
  | network
  | hardware
  | pii
deriving DecidableEq

/-- platform Collector interface: the outcome each capability call
produces on this run. Identical underlying category data means equal
Caps values. -/
structure Caps where
  GetSystemInfo : Except Str SystemInfo
  GetNetworkInfo : Except Str NetworkInfo
  GetHardwareInfo : Except Str HardwareInfo
  GetPIIInfo : Except Str PIIInfo

/-- The channel state of CollectAll: one size-1 result channel per
category plus the shared error channel (entries tagged with the wrapping
category of the `fmt.Errorf` message). `calls` instruments which
capability operations were actually invoked. -/
structure ChanState where
  systemChan : Option SystemInfo
  networkChan : Option NetworkInfo
  hardwareChan : Option HardwareInfo
  piiChan : Option PIIInfo
  errChan : List (Cat × Str)
  calls : List Cat

/-- All channels start empty. -/
def initChans : ChanState := ⟨none, none, none, none, [], []⟩

/-- One category task of CollectAll: invoke the capability call, then
either deliver the result on the category's channel or push the wrapped
error on the error channel. The PII task first checks the policy gate
and returns without calling anything when PII collection is disabled. -/
def runTask (cfg : Config) (caps : Caps) (st : ChanState) : Cat → ChanState
  | .system =>
    let st := { st with calls := st.calls ++ [Cat.system] }
    match caps.GetSystemInfo with
    | .ok info => { st with systemChan := some info }
    | .error e => { st with errChan := st.errChan ++ [(Cat.system, e)] }
  | .network =>
    let st := { st with calls := st.calls ++ [Cat.network] }
    match caps.GetNetworkInfo with
    | .ok info => { st with networkChan := some info }
    | .error e => { st with errChan := st.errChan ++ [(Cat.network, e)] }
  | .hardware =>
    let st := { st with calls := st.calls ++ [Cat.hardware] }
    match caps.GetHardwareInfo with
    | .ok info => { st with hardwareChan := some info }
    | .error e => { st with errChan := st.errChan ++ [(Cat.hardware, e)] }
  | .pii =>
    if !cfg.PII then st
    else
      let st := { st with calls := st.calls ++ [Cat.pii] }
      match caps.GetPIIInfo with
      | .ok info => { st with piiChan := some info }
      | .error e => { st with errChan := st.errChan ++ [(Cat.pii, e)] }

/-- The submitted tasks all complete before Wait returns; `order` is the
completion order in which their channel writes land. -/
def runTasks (cfg : Config) (caps : Caps) (order : List Cat) : ChanState :=
  order.foldl (runTask cfg caps) initChans

/-- The submission order of CollectAll's category loop. -/
def catSubmissionOrder : List Cat := [.system, .network, .hardware, .pii]

/-- collector.go CollectAll: the Facts skeleton initialized first, with
explicit empty slices and the collector version tag. -/
def initFacts (startTime : Nat) : Facts where
  Timestamp := startTime
  CollectionDurationMs := 0
  CollectorVersion := bytes "1.0.0"
  Hostname := []
  MachineOwner := []
  ComputerName := []
  Users := []
  LoggedInUsers := []
  HomeDirs := []
  RecentProfiles := []
  PrimaryEmail := []
  LocalIPs := []
  MACAddresses := []
  WiFiSSIDs := []
  SerialNumber := []
  HardwareUUID := []
  OSName := []
  OSVersion := []
  OSBuild := []
  Timezone := []

/-- collector.go CollectAll: draining the four result channels into the
Facts skeleton, in source order; the machine owner is the first user of
the PII payload when one exists. -/
def aggregate (systemInfo : Option SystemInfo) (networkInfo : Option NetworkInfo)
    (hardwareInfo : Option HardwareInfo) (piiInfo : Option PIIInfo)
    (facts : Facts) : Facts :=
  let f1 := match systemInfo with
    | some si => { facts with
        Hostname := si.Hostname
        ComputerName := si.Hostname
        OSName := si.OSName
        OSVersion := si.OSVersion
        OSBuild := si.OSBuild
        Timezone := si.Timezone }
    | none => facts
  let f2 := match networkInfo with
    | some ni => { f1 with
        LocalIPs := ni.Interfaces
        MACAddresses := ni.Interfaces
        WiFiSSIDs := ni.WiFiSSIDs }
    | none => f1
  let f3 := match hardwareInfo with
    | some hi => { f2 with
        SerialNumber := hi.SerialNumber
        HardwareUUID := hi.HardwareUUID }
    | none => f2
  match piiInfo with
  | some pInfo =>
    let f4 := { f3 with
        Users := pInfo.Users
        LoggedInUsers := pInfo.LoggedInUsers
        HomeDirs := pInfo.HomeDirs
        RecentProfiles := pInfo.RecentProfiles
        PrimaryEmail := pInfo.PrimaryEmail }
    { f4 with MachineOwner := match pInfo.Users with
        | u :: _ => u.Username
        | [] => f4.MachineOwner }
  | none => f3

/-- The merged (pre-sort) Facts of a run. -/
def mergedFacts (cfg : Config) (caps : Caps) (startTime : Nat)
    (order : List Cat) : Facts :=
  aggregate (runTasks cfg caps order).systemChan
    (runTasks cfg caps order).networkChan
    (runTasks cfg caps order).hardwareChan
    (runTasks cfg caps order).piiChan
    (initFacts startTime)

/-- The Facts value CollectAll validates and returns: merged, sorted,
stamped with the measured duration. -/
def finalFacts (cfg : Config) (caps : Caps) (startTime : Nat)
    (durationMs : Int) (order : List Cat) : Facts :=
  { sortFacts (mergedFacts cfg caps startTime order) with
    CollectionDurationMs := durationMs }

/-- collector.go CollectAll as a function of the category outcomes and
their completion order, with a live parent context (so pool submission
never fails): category errors are collected but non-fatal; the run fails
only when validation rejects the assembled Facts. -/
def collectAll (cfg : Config) (caps : Caps) (startTime : Nat)
    (durationMs : Int) (order : List Cat) : Except ValidationError Facts :=
  match (finalFacts cfg caps startTime durationMs order).Validate with
  | some e => .error e
  | none => .ok (finalFacts cfg caps startTime durationMs order)

/-- Net effect of the system task on its channel. -/
def sysUpd (caps : Caps) (prev : Option SystemInfo) : Option SystemInfo :=
  match caps.GetSystemInfo with
  | .ok info => some info
  | .error _ => prev

/-- Net effect of the network task on its channel. -/
def netUpd (caps : Caps) (prev : Option NetworkInfo) : Option NetworkInfo :=
  match caps.GetNetworkInfo with
  | .ok info => some info
  | .error _ => prev

/-- Net effect of the hardware task on its channel. -/
def hwUpd (caps : Caps) (prev : Option HardwareInfo) : Option HardwareInfo :=
  match caps.GetHardwareInfo with
  | .ok info => some info
  | .error _ => prev

/-- Net effect of the PII task on its channel, respecting the policy
gate. -/
def piiUpd (cfg : Config) (caps : Caps) (prev : Option PIIInfo) : Option PIIInfo :=
  if !cfg.PII then prev
  else
    match caps.GetPIIInfo with
    | .ok info => some info
    | .error _ => prev

theorem runTask_systemChan (cfg : Config) (caps : Caps) (st : ChanState) :
    ∀ c, (runTask cfg caps st c).systemChan =
      if c = Cat.system then sysUpd caps st.systemChan else st.systemChan
  | .system => by cases hs : caps.GetSystemInfo <;> simp [runTask, sysUpd, hs]
  | .network => by cases hn : caps.GetNetworkInfo <;> simp [runTask, hn]
  | .hardware => by cases hh : caps.GetHardwareInfo <;> simp [runTask, hh]
  | .pii => by
    cases hp : cfg.PII
    · simp [runTask, hp]
    · cases hpi : caps.GetPIIInfo <;> simp [runTask, hp, hpi]

theorem runTask_networkChan (cfg : Config) (caps : Caps) (st : ChanState) :
    ∀ c, (runTask cfg caps st c).networkChan =
      if c = Cat.network then netUpd caps st.networkChan else st.networkChan
  | .system => by cases hs : caps.GetSystemInfo <;> simp [runTask, hs]
  | .network => by cases hn : caps.GetNetworkInfo <;> simp [runTask, netUpd, hn]
  | .hardware => by cases hh : caps.GetHardwareInfo <;> simp [runTask, hh]
  | .pii => by
    cases hp : cfg.PII
    · simp [runTask, hp]
    · cases hpi : caps.GetPIIInfo <;> simp [runTask, hp, hpi]

theorem runTask_hardwareChan (cfg : Config) (caps : Caps) (st : ChanState) :
    ∀ c, (runTask cfg caps st c).hardwareChan =
      if c = Cat.hardware then hwUpd caps st.hardwareChan else st.hardwareChan
  | .system => by cases hs : caps.GetSystemInfo <;> simp [runTask, hs]
  | .network => by cases hn : caps.GetNetworkInfo <;> simp [runTask, hn]
  | .hardware => by cases hh : caps.GetHardwareInfo <;> simp [runTask, hwUpd, hh]
  | .pii => by
    cases hp : cfg.PII
    · simp [runTask, hp]
    · cases hpi : caps.GetPIIInfo <;> simp [runTask, hp, hpi]

theorem runTask_piiChan (cfg : Config) (caps : Caps) (st : ChanState) :
    ∀ c, (runTask cfg caps st c).piiChan =
      if c = Cat.pii then piiUpd cfg caps st.piiChan else st.piiChan
  | .system => by cases hs : caps.GetSystemInfo <;> simp [runTask, hs]
  | .network => by cases hn : caps.GetNetworkInfo <;> simp [runTask, hn]
  | .hardware => by cases hh : caps.GetHardwareInfo <;> simp [runTask, hh]
  | .pii => by
    cases hp : cfg.PII
    · simp [runTask, piiUpd, hp]
    · cases hpi : caps.GetPIIInfo <;> simp [runTask, piiUpd, hp, hpi]

theorem sysUpd_idem (caps : Caps) (p : Option SystemInfo) :
    sysUpd caps (sysUpd caps p) = sysUpd caps p := by
  cases h : caps.GetSystemInfo <;> simp [sysUpd, h]

theorem netUpd_idem (caps : Caps) (p : Option NetworkInfo) :
    netUpd caps (netUpd caps p) = netUpd caps p := by
  cases h : caps.GetNetworkInfo <;> simp [netUpd, h]

theorem hwUpd_idem (caps : Caps) (p : Option HardwareInfo) :
    hwUpd caps (hwUpd caps p) = hwUpd caps p := by
  cases h : caps.GetHardwareInfo <;> simp [hwUpd, h]

theorem piiUpd_idem (cfg : Config) (caps : Caps) (p : Option PIIInfo) :
    piiUpd cfg caps (piiUpd cfg caps p) = piiUpd cfg caps p := by
  cases hp : cfg.PII
  · simp [piiUpd, hp]
  · cases h : caps.GetPIIInfo <;> simp [piiUpd, hp, h]

theorem foldl_systemChan (cfg : Config) (caps : Caps) :
    ∀ (order : List Cat) (st : ChanState),
    (order.foldl (runTask cfg caps) st).systemChan =
      if Cat.system ∈ order then sysUpd caps st.systemChan else st.systemChan
  | [], st => by simp
  | c :: rest, st => by
    rw [List.foldl_cons, foldl_systemChan cfg caps rest (runTask cfg caps st c),
      runTask_systemChan]
    by_cases hc : c = Cat.system
    · subst hc
      by_cases hm : Cat.system ∈ rest <;> simp [hm, sysUpd_idem]
    · simp only [hc, if_false, List.mem_cons]
      have : ¬ Cat.system = c := fun h => hc h.symm
      simp [this]

theorem foldl_networkChan (cfg : Config) (caps : Caps) :
    ∀ (order : List Cat) (st : ChanState),
    (order.foldl (runTask cfg caps) st).networkChan =
      if Cat.network ∈ order then netUpd caps st.networkChan else st.networkChan
  | [], st => by simp
  | c :: rest, st => by
    rw [List.foldl_cons, foldl_networkChan cfg caps rest (runTask cfg caps st c),
      runTask_networkChan]
    by_cases hc : c = Cat.network
    · subst hc
      by_cases hm : Cat.network ∈ rest <;> simp [hm, netUpd_idem]
    · simp only [hc, if_false, List.mem_cons]
      have : ¬ Cat.network = c := fun h => hc h.symm
      simp [this]

theorem foldl_hardwareChan (cfg : Config) (caps : Caps) :
    ∀ (order : List Cat) (st : ChanState),
    (order.foldl (runTask cfg caps) st).hardwareChan =
      if Cat.hardware ∈ order then hwUpd caps st.hardwareChan else st.hardwareChan
  | [], st => by simp
  | c :: rest, st => by
    rw [List.foldl_cons, foldl_hardwareChan cfg caps rest (runTask cfg caps st c),
      runTask_hardwareChan]
    by_cases hc : c = Cat.hardware
    · subst hc
      by_cases hm : Cat.hardware ∈ rest <;> simp [hm, hwUpd_idem]
    · simp only [hc, if_false, List.mem_cons]
      have : ¬ Cat.hardware = c := fun h => hc h.symm
      simp [this]

theorem foldl_piiChan (cfg : Config) (caps : Caps) :
    ∀ (order : List Cat) (st : ChanState),
    (order.foldl (runTask cfg caps) st).piiChan =
      if Cat.pii ∈ order then piiUpd cfg caps st.piiChan else st.piiChan
  | [], st => by simp
  | c :: rest, st => by
    rw [List.foldl_cons, foldl_piiChan cfg caps rest (runTask cfg caps st c),
      runTask_piiChan]
    by_cases hc : c = Cat.pii
    · subst hc
      by_cases hm : Cat.pii ∈ rest <;> simp [hm, piiUpd_idem]
    · simp only [hc, if_false, List.mem_cons]
      have : ¬ Cat.pii = c := fun h => hc h.symm
      simp [this]

theorem aggregate_Hostname (s : Option SystemInfo) (n : Option NetworkInfo)
    (h : Option HardwareInfo) (p : Option PIIInfo) (f : Facts) :
    (aggregate s n h p f).Hostname =
      match s with
      | some si => si.Hostname
      | none => f.Hostname := by
  cases s <;> cases n <;> cases h <;> cases p <;> rfl

theorem aggregate_OSName (s : Option SystemInfo) (n : Option NetworkInfo)
    (h : Option HardwareInfo) (p : Option PIIInfo) (f : Facts) :
    (aggregate s n h p f).OSName =
      match s with
      | some si => si.OSName
      | none => f.OSName := by
  cases s <;> cases n <;> cases h <;> cases p <;> rfl

theorem aggregate_HardwareUUID (s : Option SystemInfo) (n : Option NetworkInfo)
    (h : Option HardwareInfo) (p : Option PIIInfo) (f : Facts) :
    (aggregate s n h p f).HardwareUUID =
      match h with
      | some hi => hi.HardwareUUID
      | none => f.HardwareUUID := by
  cases s <;> cases n <;> cases h <;> cases p <;> rfl

theorem aggregate_LocalIPs (s : Option SystemInfo) (n : Option NetworkInfo)
    (h : Option HardwareInfo) (p : Option PIIInfo) (f : Facts) :
    (aggregate s n h p f).LocalIPs =
      match n with
      | some ni => ni.Interfaces
      | none => f.LocalIPs := by
  cases s <;> cases n <;> cases h <;> cases p <;> rfl

theorem aggregate_MACAddresses (s : Option SystemInfo) (n : Option NetworkInfo)
    (h : Option HardwareInfo) (p : Option PIIInfo) (f : Facts) :
    (aggregate s n h p f).MACAddresses =
      match n with
      | some ni => ni.Interfaces
      | none => f.MACAddresses := by
  cases s <;> cases n <;> cases h <;> cases p <;> rfl

theorem aggregate_WiFiSSIDs (s : Option SystemInfo) (n : Option NetworkInfo)
    (h : Option HardwareInfo) (p : Option PIIInfo) (f : Facts) :
    (aggregate s n h p f).WiFiSSIDs =
      match n with
      | some ni => ni.WiFiSSIDs
      | none => f.WiFiSSIDs := by
  cases s <;> cases n <;> cases h <;> cases p <;> rfl

theorem aggregate_Users (s : Option SystemInfo) (n : Option NetworkInfo)
    (h : Option HardwareInfo) (p : Option PIIInfo) (f : Facts) :
    (aggregate s n h p f).Users =
      match p with
      | some pInfo => pInfo.Users
      | none => f.Users := by
  cases s <;> cases n <;> cases h <;> cases p <;> rfl

theorem aggregate_LoggedInUsers (s : Option SystemInfo) (n : Option NetworkInfo)
    (h : Option HardwareInfo) (p : Option PIIInfo) (f : Facts) :
    (aggregate s n h p f).LoggedInUsers =
      match p with
      | some pInfo => pInfo.LoggedInUsers
      | none => f.LoggedInUsers := by
  cases s <;> cases n <;> cases h <;> cases p <;> rfl

theorem aggregate_HomeDirs (s : Option SystemInfo) (n : Option NetworkInfo)
    (h : Option HardwareInfo) (p : Option PIIInfo) (f : Facts) :
    (aggregate s n h p f).HomeDirs =
      match p with
      | some pInfo => pInfo.HomeDirs
      | none => f.HomeDirs := by
  cases s <;> cases n <;> cases h <;> cases p <;> rfl

theorem aggregate_RecentProfiles (s : Option SystemInfo) (n : Option NetworkInfo)
    (h : Option HardwareInfo) (p : Option PIIInfo) (f : Facts) :
    (aggregate s n h p f).RecentProfiles =
      match p with
      | some pInfo => pInfo.RecentProfiles
      | none => f.RecentProfiles := by
  cases s <;> cases n <;> cases h <;> cases p <;> rfl

theorem aggregate_PrimaryEmail (s : Option SystemInfo) (n : Option NetworkInfo)
    (h : Option HardwareInfo) (p : Option PIIInfo) (f : Facts) :
    (aggregate s n h p f).PrimaryEmail =
      match p with
      | some pInfo => pInfo.PrimaryEmail
      | none => f.PrimaryEmail := by
  cases s <;> cases n <;> cases h <;> cases p <;> rfl

theorem aggregate_MachineOwner (s : Option SystemInfo) (n : Option NetworkInfo)
    (h : Option HardwareInfo) (p : Option PIIInfo) (f : Facts) :
    (aggregate s n h p f).MachineOwner =
      match p with
      | some pInfo =>
        (match pInfo.Users with
          | u :: _ => u.Username
          | [] => f.MachineOwner)
      | none => f.MachineOwner := by
  cases s <;> cases n <;> cases h <;> cases p <;> rfl

theorem Validate_isSome_iff (f : Facts) :
    (∃ e, f.Validate = some e) ↔
      (f.Hostname = [] ∨ f.OSName = [] ∨ f.HardwareUUID = []) := by
  unfold Facts.Validate
  split_ifs with h1 h2 h3 <;> simp [*]

theorem finalFacts_Hostname (cfg : Config) (caps : Caps) (t : Nat) (d : Int)
    (o : List Cat) :
    (finalFacts cfg caps t d o).Hostname = (mergedFacts cfg caps t o).Hostname := rfl

theorem finalFacts_OSName (cfg : Config) (caps : Caps) (t : Nat) (d : Int)
    (o : List Cat) :
    (finalFacts cfg caps t d o).OSName = (mergedFacts cfg caps t o).OSName := rfl

theorem finalFacts_HardwareUUID (cfg : Config) (caps : Caps) (t : Nat) (d : Int)
    (o : List Cat) :
    (finalFacts cfg caps t d o).HardwareUUID =
      (mergedFacts cfg caps t o).HardwareUUID := rfl

theorem finalFacts_LocalIPs (cfg : Config) (caps : Caps) (t : Nat) (d : Int)
    (o : List Cat) :
    (finalFacts cfg caps t d o).LocalIPs =
      sortBy ifaceLe (mergedFacts cfg caps t o).LocalIPs := rfl

theorem finalFacts_MACAddresses (cfg : Config) (caps : Caps) (t : Nat) (d : Int)
    (o : List Cat) :
    (finalFacts cfg caps t d o).MACAddresses =
      sortBy ifaceLe (mergedFacts cfg caps t o).MACAddresses := rfl

theorem finalFacts_WiFiSSIDs (cfg : Config) (caps : Caps) (t : Nat) (d : Int)
    (o : List Cat) :
    (finalFacts cfg caps t d o).WiFiSSIDs =
      sortBy strLeb (mergedFacts cfg caps t o).WiFiSSIDs := rfl

theorem finalFacts_Users (cfg : Config) (caps : Caps) (t : Nat) (d : Int)
    (o : List Cat) :
    (finalFacts cfg caps t d o).Users =
      sortBy userLe (mergedFacts cfg caps t o).Users := rfl

theorem finalFacts_LoggedInUsers (cfg : Config) (caps : Caps) (t : Nat) (d : Int)
    (o : List Cat) :
    (finalFacts cfg caps t d o).LoggedInUsers =
      sortBy strLeb (mergedFacts cfg caps t o).LoggedInUsers := rfl

theorem finalFacts_HomeDirs (cfg : Config) (caps : Caps) (t : Nat) (d : Int)
    (o : List Cat) :
    (finalFacts cfg caps t d o).HomeDirs =
      sortBy strLeb (mergedFacts cfg caps t o).HomeDirs := rfl

theorem finalFacts_RecentProfiles (cfg : Config) (caps : Caps) (t : Nat) (d : Int)
    (o : List Cat) :
    (finalFacts cfg caps t d o).RecentProfiles =
      sortBy profLe (mergedFacts cfg caps t o).RecentProfiles := rfl

theorem finalFacts_PrimaryEmail (cfg : Config) (caps : Caps) (t : Nat) (d : Int)
    (o : List Cat) :
    (finalFacts cfg caps t d o).PrimaryEmail =
      (mergedFacts cfg caps t o).PrimaryEmail := rfl

theorem finalFacts_MachineOwner (cfg : Config) (caps : Caps) (t : Nat) (d : Int)
    (o : List Cat) :
    (finalFacts cfg caps t d o).MachineOwner =
      (mergedFacts cfg caps t o).MachineOwner := rfl

theorem collectAll_ok_eq (cfg : Config) (caps : Caps) (t : Nat) (d : Int)
    (order : List Cat) (f : Facts)
    (h : collectAll cfg caps t d order = .ok f) :
    f = finalFacts cfg caps t d order := by
  unfold collectAll at h
  cases hv : (finalFacts cfg caps t d order).Validate with
  | some e => rw [hv] at h; simp at h
  | none => rw [hv] at h; exact (Except.ok.inj h).symm

/-- C1: two Facts values built by CollectAll from identical underlying
category data (equal capability outcomes), with the category tasks
completing in different orders (each order a permutation of the four
submitted categories), have identical canonicalized, serialized byte
outputs. -/
theorem collectAll_deterministic (cfg : Config) (caps : Caps)
    (startTime : Nat) (durationMs : Int) (o₁ o₂ : List Cat)
    (h₁ : o₁.Perm catSubmissionOrder) (h₂ : o₂.Perm catSubmissionOrder) :
    (collectAll cfg caps startTime durationMs o₁).map serializeFacts =
      (collectAll cfg caps startTime durationMs o₂).map serializeFacts := by
  have hmem : ∀ c : Cat, c ∈ o₁ ↔ c ∈ o₂ := fun c =>
    h₁.mem_iff.trans h₂.mem_iff.symm
  have hm : mergedFacts cfg caps startTime o₁ =
      mergedFacts cfg caps startTime o₂ := by
    unfold mergedFacts runTasks
    rw [foldl_systemChan, foldl_systemChan, foldl_networkChan,
      foldl_networkChan, foldl_hardwareChan, foldl_hardwareChan,
      foldl_piiChan, foldl_piiChan]
    simp only [hmem]
  unfold collectAll finalFacts
  rw [hm]

/-- C4: with a live parent context, CollectAll errors exactly when the
merged Facts has an empty hostname, OS name or hardware UUID; category
errors alone never cause an error return, and a failed network category
leaves its fields at their zero values inside a Facts that still
validates when the three critical fields came from other categories. -/
theorem collectAll_error_semantics (cfg : Config) (caps : Caps)
    (startTime : Nat) (durationMs : Int) (order : List Cat) :
    ((∃ e, collectAll cfg caps startTime durationMs order = .error e) ↔
      ((mergedFacts cfg caps startTime order).Hostname = [] ∨
        (mergedFacts cfg caps startTime order).OSName = [] ∨
        (mergedFacts cfg caps startTime order).HardwareUUID = [])) ∧
    (∀ netErr si hi, caps.GetNetworkInfo = .error netErr →
      caps.GetSystemInfo = .ok si → caps.GetHardwareInfo = .ok hi →
      si.Hostname ≠ [] → si.OSName ≠ [] → hi.HardwareUUID ≠ [] →
      order.Perm catSubmissionOrder →
      ∃ f, collectAll cfg caps startTime durationMs order = .ok f ∧
        f.LocalIPs = [] ∧ f.MACAddresses = [] ∧ f.WiFiSSIDs = []) := by
  constructor
  · have hiff : (∃ e, collectAll cfg caps startTime durationMs order = .error e)
        ↔ (∃ e, (finalFacts cfg caps startTime durationMs order).Validate
            = some e) := by
      unfold collectAll
      cases hv : (finalFacts cfg caps startTime durationMs order).Validate <;>
        simp [hv]
    rw [hiff, Validate_isSome_iff, finalFacts_Hostname, finalFacts_OSName,
      finalFacts_HardwareUUID]
  · intro netErr si hi hnet hsi hhi hH hO hU hperm
    have hsys : (runTasks cfg caps order).systemChan = some si := by
      unfold runTasks
      rw [foldl_systemChan]
      have hm : Cat.system ∈ order :=
        hperm.mem_iff.mpr (by simp [catSubmissionOrder])
      simp [hm, sysUpd, hsi, initChans]
    have hnetc : (runTasks cfg caps order).networkChan = none := by
      unfold runTasks
      rw [foldl_networkChan]
      by_cases hm : Cat.network ∈ order <;> simp [hm, netUpd, hnet, initChans]
    have hhwc : (runTasks cfg caps order).hardwareChan = some hi := by
      unfold runTasks
      rw [foldl_hardwareChan]
      have hm : Cat.hardware ∈ order :=
        hperm.mem_iff.mpr (by simp [catSubmissionOrder])
      simp [hm, hwUpd, hhi, initChans]
    have hHm : (mergedFacts cfg caps startTime order).Hostname = si.Hostname := by
      unfold mergedFacts
      rw [aggregate_Hostname, hsys]
    have hOm : (mergedFacts cfg caps startTime order).OSName = si.OSName := by
      unfold mergedFacts
      rw [aggregate_OSName, hsys]
    have hUm : (mergedFacts cfg caps startTime order).HardwareUUID
        = hi.HardwareUUID := by
      unfold mergedFacts
      rw [aggregate_HardwareUUID, hhwc]
    have hLm : (mergedFacts cfg caps startTime order).LocalIPs = [] := by
      unfold mergedFacts
      rw [aggregate_LocalIPs, hnetc]
      rfl
    have hMm : (mergedFacts cfg caps startTime order).MACAddresses = [] := by
      unfold mergedFacts
      rw [aggregate_MACAddresses, hnetc]
      rfl
    have hWm : (mergedFacts cfg caps startTime order).WiFiSSIDs = [] := by
      unfold mergedFacts
      rw [aggregate_WiFiSSIDs, hnetc]
      rfl
    have hval : (finalFacts cfg caps startTime durationMs order).Validate
        = none := by
      unfold Facts.Validate
      rw [finalFacts_Hostname, finalFacts_OSName, finalFacts_HardwareUUID,
        hHm, hOm, hUm]
      simp [hH, hO, hU]
    refine ⟨finalFacts cfg caps startTime durationMs order, ?_, ?_, ?_, ?_⟩
    · unfold collectAll
      rw [hval]
    · rw [finalFacts_LocalIPs, hLm]
      rfl
    · rw [finalFacts_MACAddresses, hMm]
      rfl
    · rw [finalFacts_WiFiSSIDs, hWm]
      rfl

theorem runTask_calls_pii_free (cfg : Config) (caps : Caps) (st : ChanState)
    (hpii : cfg.PII = false) (h : Cat.pii ∉ st.calls) :
    ∀ c, Cat.pii ∉ (runTask cfg caps st c).calls
  | .system => by cases hs : caps.GetSystemInfo <;> simp [runTask, hs, h]
  | .network => by cases hn : caps.GetNetworkInfo <;> simp [runTask, hn, h]
  | .hardware => by cases hh : caps.GetHardwareInfo <;> simp [runTask, hh, h]
  | .pii => by simp [runTask, hpii, h]

theorem runTask_errChan_pii_free (cfg : Config) (caps : Caps) (st : ChanState)
    (hpii : cfg.PII = false) (h : ∀ e, (Cat.pii, e) ∉ st.errChan) :
    ∀ c e, (Cat.pii, e) ∉ (runTask cfg caps st c).errChan
  | .system, e => by cases hs : caps.GetSystemInfo <;> simp [runTask, hs, h e]
  | .network, e => by cases hn : caps.GetNetworkInfo <;> simp [runTask, hn, h e]
  | .hardware, e => by
    cases hh : caps.GetHardwareInfo <;> simp [runTask, hh, h e]
  | .pii, e => by simp [runTask, hpii, h e]

theorem foldl_calls_pii_free (cfg : Config) (caps : Caps)
    (hpii : cfg.PII = false) :
    ∀ (order : List Cat) (st : ChanState), Cat.pii ∉ st.calls →
    Cat.pii ∉ (order.foldl (runTask cfg caps) st).calls
  | [], _, h => h
  | c :: rest, st, h =>
    foldl_calls_pii_free cfg caps hpii rest (runTask cfg caps st c)
      (runTask_calls_pii_free cfg caps st hpii h c)

theorem foldl_errChan_pii_free (cfg : Config) (caps : Caps)
    (hpii : cfg.PII = false) :
    ∀ (order : List Cat) (st : ChanState), (∀ e, (Cat.pii, e) ∉ st.errChan) →
    ∀ e, (Cat.pii, e) ∉ (order.foldl (runTask cfg caps) st).errChan
  | [], _, h => h
  | c :: rest, st, h =>
    foldl_errChan_pii_free cfg caps hpii rest (runTask cfg caps st c)
      (fun e => runTask_errChan_pii_free cfg caps st hpii h c e)

theorem runTasks_piiChan_disabled (cfg : Config) (caps : Caps)
    (order : List Cat) (hpii : cfg.PII = false) :
    (runTasks cfg caps order).piiChan = none := by
  unfold runTasks
  rw [foldl_piiChan]
  by_cases hm : Cat.pii ∈ order <;> simp [hm, piiUpd, hpii, initChans]

/-- C9: when PII collection is disabled by configuration, CollectAll
never invokes GetPIIInfo, records no PII-category error, and any Facts
it returns keeps Users, LoggedInUsers, HomeDirs and RecentProfiles at
their initial empty values with PrimaryEmail and MachineOwner empty. -/
theorem collectAll_pii_disabled (cfg : Config) (caps : Caps)
    (startTime : Nat) (durationMs : Int) (order : List Cat)
    (hpii : cfg.PII = false) :
    Cat.pii ∉ (runTasks cfg caps order).calls ∧
    (∀ e, (Cat.pii, e) ∉ (runTasks cfg caps order).errChan) ∧
    ∀ f, collectAll cfg caps startTime durationMs order = .ok f →
      f.Users = [] ∧ f.LoggedInUsers = [] ∧ f.HomeDirs = [] ∧
      f.RecentProfiles = [] ∧ f.PrimaryEmail = [] ∧ f.MachineOwner = [] := by
  refine ⟨foldl_calls_pii_free cfg caps hpii order initChans (by simp [initChans]),
    foldl_errChan_pii_free cfg caps hpii order initChans
      (by simp [initChans]), ?_⟩
  intro f hf
  have hpc := runTasks_piiChan_disabled cfg caps order hpii
  have hUm : (mergedFacts cfg caps startTime order).Users = [] := by
    unfold mergedFacts
    rw [aggregate_Users, hpc]
    rfl
  have hLm : (mergedFacts cfg caps startTime order).LoggedInUsers = [] := by
    unfold mergedFacts
    rw [aggregate_LoggedInUsers, hpc]
    rfl
  have hHm : (mergedFacts cfg caps startTime order).HomeDirs = [] := by
    unfold mergedFacts
    rw [aggregate_HomeDirs, hpc]
    rfl
  have hRm : (mergedFacts cfg caps startTime order).RecentProfiles = [] := by
    unfold mergedFacts
    rw [aggregate_RecentProfiles, hpc]
    rfl
  have hPm : (mergedFacts cfg caps startTime order).PrimaryEmail = [] := by
    unfold mergedFacts
    rw [aggregate_PrimaryEmail, hpc]
    rfl
  have hMm : (mergedFacts cfg caps startTime order).MachineOwner = [] := by
    unfold mergedFacts
    rw [aggregate_MachineOwner, hpc]
    rfl
  rw [collectAll_ok_eq cfg caps startTime durationMs order f hf]
  refine ⟨?_, ?_, ?_, ?_, ?_, ?_⟩
  · rw [finalFacts_Users, hUm]
    rfl
  · rw [finalFacts_LoggedInUsers, hLm]
    rfl
  · rw [finalFacts_HomeDirs, hHm]
    rfl
  · rw [finalFacts_RecentProfiles, hRm]
    rfl
  · rw [finalFacts_PrimaryEmail, hPm]
  · rw [finalFacts_MachineOwner, hMm]

/-- Witness fixture: a concrete system-category payload. -/
def siW : SystemInfo :=
  ⟨bytes "Linux", bytes "6.2.0", bytes "generic", bytes "UTC", bytes "host-a"⟩

/-- Witness fixture: a concrete hardware-category payload. -/
def hiW : HardwareInfo := ⟨bytes "SN-1", bytes "1234-uuid"⟩

/-- Witness fixture: a concrete PII-category payload with unsorted
users. -/
def piW : PIIInfo :=
  ⟨[⟨bytes "zoe", [], []⟩, ⟨bytes "amy", [], []⟩], [bytes "zoe"],
    [bytes "/home/zoe"], [], bytes "zoe@example.org"⟩

/-- Witness fixture: capability outcomes with a failing network
category. -/
def capsW : Caps :=
  ⟨.ok siW, .error (bytes "network down"), .ok hiW, .ok piW⟩

/-- Witness fixture: PII collection enabled. -/
def cfgW : Config := ⟨true⟩

/-- Witness fixture: PII collection disabled. -/
def cfgQ : Config := ⟨false⟩

theorem collectAll_deterministic_witness :
    (collectAll cfgW capsW 0 5
        [Cat.pii, Cat.hardware, Cat.network, Cat.system]).map serializeFacts =
      (collectAll cfgW capsW 0 5 catSubmissionOrder).map serializeFacts :=
  collectAll_deterministic cfgW capsW 0 5 _ _ (by decide) (by decide)

theorem collectAll_error_semantics_witness :
    ∃ f, collectAll cfgW capsW 0 5 catSubmissionOrder = .ok f ∧
      f.LocalIPs = [] ∧ f.MACAddresses = [] ∧ f.WiFiSSIDs = [] :=
  (collectAll_error_semantics cfgW capsW 0 5 catSubmissionOrder).2
    (bytes "network down") siW hiW rfl rfl rfl (by decide) (by decide)
    (by decide) (by decide)

/-- The Facts value the PII-disabled witness run returns. -/
def fW : Facts where
  Timestamp := 0
  CollectionDurationMs := 5
  CollectorVersion := bytes "1.0.0"
  Hostname := bytes "host-a"
  MachineOwner := []
  ComputerName := bytes "host-a"
  Users := []
  LoggedInUsers := []
  HomeDirs := []
  RecentProfiles := []
  PrimaryEmail := []
  LocalIPs := []
  MACAddresses := []
  WiFiSSIDs := []
  SerialNumber := bytes "SN-1"
  HardwareUUID := bytes "1234-uuid"
  OSName := bytes "Linux"
  OSVersion := bytes "6.2.0"
  OSBuild := bytes "generic"
  Timezone := bytes "UTC"

theorem collectAll_pii_disabled_witness :
    fW.Users = [] ∧ fW.LoggedInUsers = [] ∧ fW.HomeDirs = [] ∧
    fW.RecentProfiles = [] ∧ fW.PrimaryEmail = [] ∧ fW.MachineOwner = [] :=
  (collectAll_pii_disabled cfgQ capsW 0 5 catSubmissionOrder rfl).2.2 fW rfl

/-- pool.go: the lifecycle of one task submitted to the bounded pool.
`pending` blocks in Submit's select; `acquired` holds a semaphore slot
with the goroutine spawned and Submit returned; `executing` is task()
running; `returned` is task() finished with the deferred slot release
still pending; `done` has released the slot; `cancelled` saw the
context expire before a slot was acquired. -/
inductive TStatus
  | pending
  | acquired
  | executing
  | returned
  | done
  | cancelled
deriving DecidableEq

/-- pool.go BoundedPool: `cap` is the semaphore buffer capacity
(maxWorkers), `slots` the number of occupied semaphore cells, `ctxDone`
whether the submission context has expired, `tasks` the status of each
submitted task. -/
structure PoolState where
  cap : Nat
  slots : Nat
  ctxDone : Bool
  tasks : List TStatus
deriving DecidableEq

/-- The observable pool events. -/
inductive PoolLabel
  | ctxExpire
  | submitSlot (i : Nat)
  | submitCancel (i : Nat)
  | beginTask (i : Nat)
  | endTask (i : Nat)
  | releaseSlot (i : Nat)
deriving DecidableEq

/-- Submit's return value. -/
inductive SubmitRet
  | ok
  | ctxErr
deriving DecidableEq

/-- The value Submit returns at each step label (none when the label is
not a Submit event). -/
def submitRet : PoolLabel → Option SubmitRet
  | .submitSlot _ => some .ok
  | .submitCancel _ => some .ctxErr
  | _ => none

/-- pool.go: the small-step semantics of BoundedPool. A slot is acquired
only when the semaphore has room (`slots < cap`); the select's
cancellation branch fires only once the context is done; a task begins
executing only after its Submit acquired a slot, and its slot is
released only after it stops executing (the deferred receive). -/
inductive PoolStep : PoolState → PoolLabel → PoolState → Prop
  | ctxExpire (s : PoolState) :
      PoolStep s .ctxExpire { s with ctxDone := true }
  | submitSlot (s : PoolState) (i : Nat)
      (hp : s.tasks[i]? = some TStatus.pending) (hs : s.slots < s.cap) :
      PoolStep s (.submitSlot i)
        { s with
            slots := s.slots + 1
            tasks := s.tasks.set i TStatus.acquired }
  | submitCancel (s : PoolState) (i : Nat)
      (hp : s.tasks[i]? = some TStatus.pending) (hc : s.ctxDone = true) :
      PoolStep s (.submitCancel i)
        { s with tasks := s.tasks.set i TStatus.cancelled }
  | beginTask (s : PoolState) (i : Nat)
      (hp : s.tasks[i]? = some TStatus.acquired) :
      PoolStep s (.beginTask i)
        { s with tasks := s.tasks.set i TStatus.executing }
  | endTask (s : PoolState) (i : Nat)
      (hp : s.tasks[i]? = some TStatus.executing) :
      PoolStep s (.endTask i)
        { s with tasks := s.tasks.set i TStatus.returned }
  | releaseSlot (s : PoolState) (i : Nat)
      (hp : s.tasks[i]? = some TStatus.returned) :
      PoolStep s (.releaseSlot i)
        { s with
            slots := s.slots - 1
            tasks := s.tasks.set i TStatus.done }

/-- Reachability along pool steps. -/
inductive PoolReach : PoolState → PoolState → Prop
  | refl (s : PoolState) : PoolReach s s
  | tail {s t u : PoolState} (l : PoolLabel) :
      PoolReach s t → PoolStep t l u → PoolReach s u

/-- NewBoundedPool(maxWorkers) with K tasks submitted and none yet
scheduled. -/
def initPool (maxWorkers K : Nat) : PoolState :=
  ⟨maxWorkers, 0, false, List.replicate K TStatus.pending⟩

/-- Statuses that hold a semaphore slot. -/
def holdsSlot : TStatus → Bool
  | .acquired => true
  | .executing => true
  | .returned => true
  | _ => false

/-- The task's function is currently running. -/
def isExecuting : TStatus → Bool
  | .executing => true
  | _ => false

theorem countP_set_add {α : Type} (p : α → Bool) :
    ∀ (l : List α) (i : Nat) (a b : α), l[i]? = some a →
    (l.set i b).countP p + (if p a then 1 else 0) =
      l.countP p + (if p b then 1 else 0)
  | [], i, a, b, h => by simp at h
  | x :: xs, 0, a, b, h => by
    simp only [List.getElem?_cons_zero, Option.some.injEq] at h
    subst h
    simp [List.countP_cons]
    omega
  | x :: xs, i + 1, a, b, h => by
    rw [List.getElem?_cons_succ] at h
    have ih := countP_set_add p xs i a b h
    simp only [List.set_cons_succ, List.countP_cons]
    omega

/-- The pool invariant: occupied slots count exactly the slot-holding
tasks and never exceed capacity. -/
def PoolInv (s : PoolState) : Prop :=
  s.tasks.countP holdsSlot = s.slots ∧ s.slots ≤ s.cap

theorem poolStep_cap {s : PoolState} {l : PoolLabel} {s' : PoolState}
    (h : PoolStep s l s') : s'.cap = s.cap := by
  cases h <;> rfl

theorem poolStep_inv {s : PoolState} {l : PoolLabel} {s' : PoolState}
    (h : PoolStep s l s') (hinv : PoolInv s) : PoolInv s' := by
  obtain ⟨h1, h2⟩ := hinv
  cases h with
  | ctxExpire => exact ⟨h1, h2⟩
  | submitSlot i hp hs =>
    have hc := countP_set_add holdsSlot s.tasks i _ TStatus.acquired hp
    simp [holdsSlot] at hc
    exact ⟨by show List.countP holdsSlot (s.tasks.set i TStatus.acquired) = s.slots + 1; omega,
      by show s.slots + 1 ≤ s.cap; omega⟩
  | submitCancel i hp hc =>
    have hcp := countP_set_add holdsSlot s.tasks i _ TStatus.cancelled hp
    simp [holdsSlot] at hcp
    exact ⟨by simp only []; omega, h2⟩
  | beginTask i hp =>
    have hcp := countP_set_add holdsSlot s.tasks i _ TStatus.executing hp
    simp [holdsSlot] at hcp
    exact ⟨by simp only []; omega, h2⟩
  | endTask i hp =>
    have hcp := countP_set_add holdsSlot s.tasks i _ TStatus.returned hp
    simp [holdsSlot] at hcp
    exact ⟨by simp only []; omega, h2⟩
  | releaseSlot i hp =>
    have hcp := countP_set_add holdsSlot s.tasks i _ TStatus.done hp
    simp [holdsSlot] at hcp
    exact ⟨by show List.countP holdsSlot (s.tasks.set i TStatus.done) = s.slots - 1; omega,
      by show s.slots - 1 ≤ s.cap; omega⟩

theorem poolReach_inv {s s' : PoolState} (h : PoolReach s s')
    (hinv : PoolInv s) : PoolInv s' := by
  induction h with
  | refl => exact hinv
  | tail l hreach hstep ih => exact poolStep_inv hstep ih

theorem poolReach_cap {s s' : PoolState} (h : PoolReach s s') :
    s'.cap = s.cap := by
  induction h with
  | refl => rfl
  | tail l hreach hstep ih => rw [poolStep_cap hstep, ih]

/-- C3: for every pool created with NewBoundedPool(N) and every K ≥ N
submitted tasks, no reachable instant has more than N tasks executing
concurrently. -/
theorem pool_bounded_concurrency (N K : Nat) (hK : N ≤ K) (s : PoolState)
    (h : PoolReach (initPool N K) s) :
    s.tasks.countP isExecuting ≤ N := by
  have h0 : (List.replicate K TStatus.pending).countP holdsSlot = 0 := by
    rw [List.countP_eq_zero]
    intro a ha
    rw [List.eq_of_mem_replicate ha]
    simp [holdsSlot]
  have hinv : PoolInv s := poolReach_inv h ⟨h0, Nat.zero_le N⟩
  have hcap : s.cap = N := poolReach_cap h
  have hmono : s.tasks.countP isExecuting ≤ s.tasks.countP holdsSlot :=
    List.countP_mono_left (fun a _ ha => by
      cases a <;> simp_all [isExecuting, holdsSlot])
  obtain ⟨h1, h2⟩ := hinv
  omega

theorem poolStep_cancelled {s : PoolState} {l : PoolLabel} {s' : PoolState}
    (i : Nat) (h : PoolStep s l s')
    (hc : s.tasks[i]? = some TStatus.cancelled) :
    s'.tasks[i]? = some TStatus.cancelled := by
  cases h with
  | ctxExpire => exact hc
  | submitSlot j hp hs =>
    have hne : j ≠ i := fun e => by rw [e, hc] at hp; simp at hp
    simp only []
    rw [List.getElem?_set_ne hne]
    exact hc
  | submitCancel j hp hcd =>
    have hne : j ≠ i := fun e => by rw [e, hc] at hp; simp at hp
    simp only []
    rw [List.getElem?_set_ne hne]
    exact hc
  | beginTask j hp =>
    have hne : j ≠ i := fun e => by rw [e, hc] at hp; simp at hp
    simp only []
    rw [List.getElem?_set_ne hne]
    exact hc
  | endTask j hp =>
    have hne : j ≠ i := fun e => by rw [e, hc] at hp; simp at hp
    simp only []
    rw [List.getElem?_set_ne hne]
    exact hc
  | releaseSlot j hp =>
    have hne : j ≠ i := fun e => by rw [e, hc] at hp; simp at hp
    simp only []
    rw [List.getElem?_set_ne hne]
    exact hc

/-- C7: Submit's select semantics. When the context expires before a
slot is acquired, Submit returns the cancellation error, the task is
marked cancelled, and a cancelled task never runs (cancellation is
absorbing along every reachable future). Otherwise Submit acquires a
slot, returns nil with the task spawned but not finished, and the task
can begin executing in the background afterwards. -/
theorem submit_semantics :
    (∀ (s s' : PoolState) (i : Nat), PoolStep s (.submitCancel i) s' →
      submitRet (.submitCancel i) = some SubmitRet.ctxErr ∧
      s'.tasks[i]? = some TStatus.cancelled) ∧
    (∀ (s s' : PoolState) (i : Nat), s.tasks[i]? = some TStatus.cancelled →
      PoolReach s s' → s'.tasks[i]? = some TStatus.cancelled) ∧
    (∀ (s s' : PoolState) (i : Nat), PoolStep s (.submitSlot i) s' →
      submitRet (.submitSlot i) = some SubmitRet.ok ∧
      s'.tasks[i]? = some TStatus.acquired ∧
      PoolStep s' (.beginTask i)
        { s' with tasks := s'.tasks.set i TStatus.executing }) := by
  refine ⟨?_, ?_, ?_⟩
  · intro s s' i h
    cases h with
    | submitCancel j hp hc =>
      refine ⟨rfl, ?_⟩
      have hlen : i < s.tasks.length := (List.getElem?_eq_some.mp hp).1
      simp [List.getElem?_set, hlen]
  · intro s s' i hc hreach
    induction hreach with
    | refl => exact hc
    | tail l hsteps hstep ih => exact poolStep_cancelled i hstep ih
  · intro s s' i h
    cases h with
    | submitSlot j hp hs =>
      have hlen : i < s.tasks.length := (List.getElem?_eq_some.mp hp).1
      have hacq : (s.tasks.set i TStatus.acquired)[i]? = some TStatus.acquired := by
        simp [List.getElem?_set, hlen]
      exact ⟨rfl, hacq, PoolStep.beginTask _ i hacq⟩

theorem pool_bounded_concurrency_witness :
    (PoolState.mk 1 1 false [TStatus.acquired, TStatus.pending]).tasks.countP
      isExecuting ≤ 1 :=
  pool_bounded_concurrency 1 2 (by decide) _
    (PoolReach.tail (.submitSlot 0) (PoolReach.refl _)
      (PoolStep.submitSlot _ 0 (by decide) (by decide)))

theorem submit_semantics_witness :
    submitRet (PoolLabel.submitCancel 0) = some SubmitRet.ctxErr ∧
    (PoolState.mk 1 0 true [TStatus.cancelled]).tasks[0]? =
      some TStatus.cancelled :=
  submit_semantics.1 (PoolState.mk 1 0 true [TStatus.pending]) _ 0
    (PoolStep.submitCancel _ 0 (by decide) rfl)

/-- The file system seen by writer.go: contents by path. -/
def FS : Type := Str → Option Str

/-- Create or replace a file's content. -/
def setFile (fs : FS) (p c : Str) : FS :=
  fun q => if q = p then some c else fs q

/-- Remove a file. -/
def delFile (fs : FS) (p : Str) : FS :=
  fun q => if q = p then none else fs q

/-- writer.go: the temporary path `path + ".tmp"`. -/
def tmpPath (path : Str) : Str := path ++ bytes ".tmp"

theorem tmpPath_ne (path : Str) : tmpPath path ≠ path := by
  intro h
  have hl := congrArg List.length h
  simp [tmpPath, bytes] at hl

/-- Which operations fail during one WriteAtomic run (fault
injection). -/
structure FaultSpec where
  mkdirFails : Bool
  openFails : Bool
  writeFails : Bool
  syncFails : Bool
  closeFails : Bool
  renameFails : Bool
  dirSyncFails : Bool
deriving DecidableEq

/-- The wrapped error WriteAtomic returns, identified by failing
stage. -/
inductive WriteErr
  | mkdirFailed
  | createTempFailed
  | writeFailed
  | syncFailed
  | closeFailed
  | renameFailed
  | dirSyncFailed
deriving DecidableEq

/-- writer.go WriteAtomic: ensure the directory, create/truncate the
temp file, write the payload, fsync, close, rename onto the final path,
fsync the directory. Error branches after temp creation remove the temp
file; the rename is atomic (delete temp, set destination in one step);
a directory-fsync failure is reported after the rename already
happened. `partialData` is whatever a failing write left in the temp
file before cleanup. -/
def writeAtomic (fs : FS) (path data partialData : Str) (f : FaultSpec) :
    FS × Option WriteErr :=
  if f.mkdirFails then (fs, some .mkdirFailed)
  else if f.openFails then (fs, some .createTempFailed)
  else
    let fsOpened := setFile fs (tmpPath path) []
    if f.writeFails then
      (delFile (setFile fsOpened (tmpPath path) partialData) (tmpPath path),
        some .writeFailed)
    else
      let fsWritten := setFile fsOpened (tmpPath path) data
      if f.syncFails then
        (delFile fsWritten (tmpPath path), some .syncFailed)
      else if f.closeFails then
        (delFile fsWritten (tmpPath path), some .closeFailed)
      else if f.renameFails then
        (delFile fsWritten (tmpPath path), some .renameFailed)
      else
        let fsRenamed := setFile (delFile fsWritten (tmpPath path)) path data
        if f.dirSyncFails then (fsRenamed, some .dirSyncFailed)
        else (fsRenamed, none)

/-- C5: whenever WriteAtomic returns an error arising from temp-file
creation, data write, fsync, close, or the rename itself, the temporary
file has been removed (absent afterwards, given no stale temp
pre-existed) and the destination path's content is unchanged. -/
theorem writeAtomic_error_cleanup (fs : FS) (path data partialData : Str)
    (f : FaultSpec) (e : WriteErr)
    (htmp : fs (tmpPath path) = none)
    (herr : (writeAtomic fs path data partialData f).2 = some e)
    (he : e = .createTempFailed ∨ e = .writeFailed ∨ e = .syncFailed ∨
      e = .closeFailed ∨ e = .renameFailed) :
    (writeAtomic fs path data partialData f).1 (tmpPath path) = none ∧
    (writeAtomic fs path data partialData f).1 path = fs path := by
  have hne : path ≠ tmpPath path := fun h => tmpPath_ne path h.symm
  unfold writeAtomic at herr ⊢
  split_ifs at herr ⊢ with h1 h2 h3 h4 h5 h6 h7
  · simp only [Option.some.injEq] at herr
    subst herr
    rcases he with h | h | h | h | h <;> simp at h
  · exact ⟨htmp, rfl⟩
  · simp [delFile, setFile, hne]
  · simp [delFile, setFile, hne]
  · simp [delFile, setFile, hne]
  · simp [delFile, setFile, hne]
  · simp only [Option.some.injEq] at herr
    subst herr
    rcases he with h | h | h | h | h <;> simp at h

/-- C8: if every step through the rename succeeds and only the
containing-directory fsync fails, WriteAtomic reports the failure while
the destination path already contains the complete new payload: the
renamed file is kept and the temp path is gone. -/
theorem writeAtomic_dirsync_reported (fs : FS) (path data partialData : Str)
    (f : FaultSpec)
    (hm : f.mkdirFails = false) (ho : f.openFails = false)
    (hw : f.writeFails = false) (hs : f.syncFails = false)
    (hc : f.closeFails = false) (hr : f.renameFails = false)
    (hd : f.dirSyncFails = true) :
    (writeAtomic fs path data partialData f).2 = some WriteErr.dirSyncFailed ∧
    (writeAtomic fs path data partialData f).1 path = some data ∧
    (writeAtomic fs path data partialData f).1 (tmpPath path) = none := by
  have hne : tmpPath path ≠ path := tmpPath_ne path
  unfold writeAtomic
  simp [hm, ho, hw, hs, hc, hr, hd, setFile, delFile, hne]

/-- Witness fixture: the empty file system. -/
def fsW : FS := fun _ => none

/-- Witness fixture: a destination path. -/
def pathW : Str := bytes "out/facts.json"

/-- Witness fixture: a payload and the partial prefix a failed write
leaves. -/
def dataW : Str := bytes "payload"

/-- Witness fixture: only the rename fails. -/
def faultRename : FaultSpec := ⟨false, false, false, false, false, true, false⟩

/-- Witness fixture: only the directory fsync fails. -/
def faultDirSync : FaultSpec := ⟨false, false, false, false, false, false, true⟩

theorem writeAtomic_error_cleanup_witness :
    (writeAtomic fsW pathW dataW [] faultRename).1 (tmpPath pathW) = none ∧
    (writeAtomic fsW pathW dataW [] faultRename).1 pathW = fsW pathW :=
  writeAtomic_error_cleanup fsW pathW dataW [] faultRename .renameFailed rfl
    rfl (by decide)

theorem writeAtomic_dirsync_reported_witness :
    (writeAtomic fsW pathW dataW [] faultDirSync).2 =
        some WriteErr.dirSyncFailed ∧
    (writeAtomic fsW pathW dataW [] faultDirSync).1 pathW = some dataW ∧
    (writeAtomic fsW pathW dataW [] faultDirSync).1 (tmpPath pathW) = none :=
  writeAtomic_dirsync_reported fsW pathW dataW [] faultDirSync rfl rfl rfl rfl
    rfl rfl rfl

/-- The Ed25519 primitive of Go's crypto/ed25519 package, held
abstract: the repository only wraps it. `sign` takes the private key and
the message; `verify` takes the public key, the message and the
signature. -/
structure SigModel where
  sign : Str → Str → Str
  verify : Str → Str → Str → Bool

/-- The SHA-256 primitive of crypto/sha256, held abstract. -/
structure HashModel where
  hash : Str → Str

/-- crypto/types.go KeyPair; the private key may be nil. -/
structure KeyPair where
  pub : Str
  priv : Option Str

/-- crypto SignatureSize: Ed25519 signatures are 64 bytes. -/
def SignatureSize : Nat := 64

/-- crypto Signer.Sign: errors without key material, otherwise signs
the SHA-256 digest of the data (hash-then-sign). -/
def Sign (E : SigModel) (H : HashModel) (keyPair : Option KeyPair)
    (data : Str) : Except Str Str :=
  match keyPair with
  | none => .error (bytes "no private key available")
  | some kp =>
    match kp.priv with
    | none => .error (bytes "no private key available")
    | some sk => .ok (E.sign sk (H.hash data))

/-- crypto Verify: rejects signatures of the wrong length outright,
otherwise verifies the Ed25519 signature over the SHA-256 digest. -/
def Verify (E : SigModel) (H : HashModel)
    (publicKey data signature : Str) : Bool :=
  if signature.length ≠ SignatureSize then false
  else E.verify publicKey (H.hash data) signature

/-- Flip bit i of a byte payload: byte i/8, bit i%8. -/
def flipBit (P : Str) (i : Nat) : Str :=
  P.set (i / 8) ((P.getD (i / 8) 0) ^^^ (1 <<< (i % 8)))

/-- C2: round-trip signing. Under the standard contract of the external
primitives — Ed25519 correctness and signature-message uniqueness for
the generated key pair, the fixed 64-byte signature size, and SHA-256
collision-freedom across single-bit flips of the payload — Verify
accepts the signed payload and rejects every single-bit mutation of
it. -/
theorem hash_then_sign_roundtrip (E : SigModel) (H : HashModel)
    (kp : KeyPair) (sk : Str) (P : Str)
    (hsk : kp.priv = some sk)
    (hcorr : ∀ m, E.verify kp.pub m (E.sign sk m) = true)
    (huniq : ∀ m m', E.verify kp.pub m' (E.sign sk m) = true → m' = m)
    (hlen : (E.sign sk (H.hash P)).length = SignatureSize)
    (hcoll : ∀ i, i < 8 * P.length → H.hash (flipBit P i) ≠ H.hash P) :
    ∃ sig, Sign E H (some kp) P = .ok sig ∧
      Verify E H kp.pub P sig = true ∧
      ∀ i, i < 8 * P.length →
        Verify E H kp.pub (flipBit P i) sig = false := by
  refine ⟨E.sign sk (H.hash P), ?_, ?_, ?_⟩
  · simp [Sign, hsk]
  · simp [Verify, hlen, hcorr]
  · intro i hi
    simp only [Verify, hlen]
    rw [if_neg (by simp)]
    by_contra hv
    have hv' : E.verify kp.pub (H.hash (flipBit P i))
        (E.sign sk (H.hash P)) = true := by
      revert hv
      cases E.verify kp.pub (H.hash (flipBit P i)) (E.sign sk (H.hash P)) <;>
        simp
    exact hcoll i hi (huniq _ _ hv')

/-- pem.Block as the loaders see it: the type tag and the decoded
bytes (the Go field names are Type and Bytes). -/
structure PemBlock where
  BlockType : Str
  Bytes : Str
deriving DecidableEq

/-- crypto PrivateKeySize: 64 bytes (seed plus public key). -/
def PrivateKeySize : Nat := 64

/-- crypto PublicKeySize: 32 bytes. -/
def PublicKeySize : Nat := 32

/-- The tag SavePrivateKey writes. -/
def privateKeyTag : Str := bytes "PRIVATE KEY"

/-- The tag SavePublicKey writes. -/
def publicKeyTag : Str := bytes "PUBLIC KEY"

/-- The envelope SavePrivateKey encodes for a private key. -/
def privateKeyBlock (key : Str) : PemBlock := ⟨privateKeyTag, key⟩

/-- The envelope SavePublicKey encodes for a public key. -/
def publicKeyBlock (key : Str) : PemBlock := ⟨publicKeyTag, key⟩

/-- summarizer.go LoadPrivateKey, applied to the decode of the file's
PEM content (none when pem.Decode fails): checks the type tag, then the
fixed key size. -/
def LoadPrivateKey (blk : Option PemBlock) : Except Str Str :=
  match blk with
  | none => .error (bytes "failed to decode PEM block")
  | some b =>
    if b.BlockType ≠ privateKeyTag then
      .error (bytes "invalid PEM block type")
    else if b.Bytes.length ≠ PrivateKeySize then
      .error (bytes "invalid private key size")
    else .ok b.Bytes

/-- summarizer.go LoadPublicKey, applied to the decode of the file's
PEM content: checks the type tag, then the fixed key size. -/
def LoadPublicKey (blk : Option PemBlock) : Except Str Str :=
  match blk with
  | none => .error (bytes "failed to decode PEM block")
  | some b =>
    if b.BlockType ≠ publicKeyTag then
      .error (bytes "invalid PEM block type")
    else if b.Bytes.length ≠ PublicKeySize then
      .error (bytes "invalid public key size")
    else .ok b.Bytes

/-- C6: loading a saved public-key envelope through the private-key
loader errors and vice versa, and each loader rejects any block whose
decoded byte length differs from its fixed key size (64 private, 32
public). -/
theorem key_loader_envelope_integrity :
    (∀ pub : Str, ∃ e, LoadPrivateKey (some (publicKeyBlock pub)) = .error e) ∧
    (∀ priv : Str, ∃ e, LoadPublicKey (some (privateKeyBlock priv)) = .error e) ∧
    (∀ b : PemBlock, b.Bytes.length ≠ PrivateKeySize →
      ∃ e, LoadPrivateKey (some b) = .error e) ∧
    (∀ b : PemBlock, b.Bytes.length ≠ PublicKeySize →
      ∃ e, LoadPublicKey (some b) = .error e) := by
  have htag : publicKeyTag ≠ privateKeyTag := by decide
  have htag' : privateKeyTag ≠ publicKeyTag := by decide
  refine ⟨?_, ?_, ?_, ?_⟩
  · intro pub
    exact ⟨bytes "invalid PEM block type",
      by simp [LoadPrivateKey, publicKeyBlock, htag]⟩
  · intro priv
    exact ⟨bytes "invalid PEM block type",
      by simp [LoadPublicKey, privateKeyBlock, htag']⟩
  · intro b hb
    by_cases ht : b.BlockType = privateKeyTag
    · exact ⟨bytes "invalid private key size",
        by simp [LoadPrivateKey, ht, hb]⟩
    · exact ⟨bytes "invalid PEM block type", by simp [LoadPrivateKey, ht]⟩
  · intro b hb
    by_cases ht : b.BlockType = publicKeyTag
    · exact ⟨bytes "invalid public key size",
        by simp [LoadPublicKey, ht, hb]⟩
    · exact ⟨bytes "invalid PEM block type", by simp [LoadPublicKey, ht]⟩

theorem key_loader_envelope_integrity_witness :
    ∃ e, LoadPrivateKey (some (PemBlock.mk privateKeyTag [0])) = .error e :=
  key_loader_envelope_integrity.2.2.1 ⟨privateKeyTag, [0]⟩ (by decide)

/-- Witness fixture: an idealized signature primitive whose signature
is the message itself and whose verification is equality. -/
def sigW : SigModel := ⟨fun _ m => m, fun _ m s => m == s⟩

/-- Witness fixture: the identity hash. -/
def hashW : HashModel := ⟨fun s => s⟩

/-- Witness fixture: a key pair with key material present. -/
def kpW : KeyPair := ⟨[], some []⟩

/-- Witness fixture: a 64-byte payload. -/
def pW : Str := List.replicate 64 0

set_option maxRecDepth 8192 in
theorem hash_then_sign_roundtrip_witness :
    Verify sigW hashW kpW.pub pW pW = true ∧
    Verify sigW hashW kpW.pub (flipBit pW 0) pW = false := by
  obtain ⟨sig, hok, hv, hflip⟩ :=
    hash_then_sign_roundtrip sigW hashW kpW [] pW rfl
      (fun m => by simp [sigW])
      (fun m m' h => by simpa [sigW] using h)
      (by decide)
      (by decide)
  have hsig : sig = pW := by
    have hok' : Sign sigW hashW (some kpW) pW = .ok pW := rfl
    rw [hok'] at hok
    exact (Except.ok.inj hok).symm
  rw [hsig] at hv hflip
  exact ⟨hv, hflip 0 (by decide)⟩

end Minibeast
